import Mathlib

/-!
Shallow embedding of the in-memory user/auth service (`src/proto/services.py`)
and the S3 locator/upload service
(`src/mitre/securingai/restapi/shared/s3/service.py`), with theorems checking
the natural-language specification against the code.

Modelling conventions:
* The user store `db["users"]` is a Python dict keyed by strings; it is
  embedded as an insertion-ordered association list `List (String × User)`.
  `dict.values()` iteration order is insertion order, which the list preserves;
  assigning to an existing key keeps its position, assigning a fresh key
  appends (`store_set`).
* The passlib `CryptContext` is external; it is embedded as a record of two
  opaque functions `hash` and `verify` (the only operations the service uses).
  Theorems that need the round trip `verify p (hash p) = true` take it as a
  hypothesis.
* `uuid.uuid4().hex` is external randomness; each operation that draws a fresh
  alternative id receives it as an explicit argument.
* `flask_login.current_user` is an object aliased inside the store; it is
  embedded as the key `ckey` of the current user's entry, and mutation of the
  object becomes replacement of that entry.  The services are only invoked
  with an authenticated current user, so the `none` branch of the key lookup
  is unreachable in modelled states; it returns the failure result unchanged.
-/

structure User where
  id : Nat
  alternative_id : String
  name : String
  password : String
  deleted : Bool
deriving DecidableEq, Repr

structure PasswordService where
  hash : String → String
  verify : String → String → Bool

/-- A service return value: the Python methods return either a dict
`{"status": s, "message": m}` (httpCode = none) or a pair of such a dict and
an HTTP status code (httpCode = some c). -/
structure SvcResponse where
  status : Nat
  message : String
  httpCode : Option Nat
deriving DecidableEq, Repr

abbrev Store := List (String × User)

/-- `db["users"].values()` in insertion order. -/
def store_values (s : Store) : List User := s.map Prod.snd

/-- `db["users"][k]` lookup. -/
def store_get (s : Store) (k : String) : Option User :=
  (s.find? (fun pr => pr.1 == k)).map Prod.snd

/-- `db["users"][k] = u`: replace in place when the key is present, append
otherwise (Python dict assignment keeps the position of an existing key). -/
def store_set (s : Store) (k : String) (u : User) : Store :=
  if s.any (fun pr => pr.1 == k) then
    s.map (fun pr => if pr.1 == k then (k, u) else pr)
  else s ++ [(k, u)]

/-- The generator `(x for x in db["users"].values() if x.name == name and not
x.deleted)` reduced to its first element, as consumed by the `for`/`break`
loop of `authenticate_user`. -/
def first_name_match (s : Store) (name : String) : Option User :=
  (store_values s).find? (fun x => x.name == name && !x.deleted)

/-- `UserService.authenticate_user`: take the first non-deleted user whose
name matches; return it when the password verifies, otherwise `None` (the
loop body unconditionally `break`s after the first candidate). -/
def authenticate_user (ps : PasswordService) (s : Store) (name password : String) :
    Option User :=
  match first_name_match s name with
  | some user => if ps.verify password user.password then some user else none
  | none => none

/-- `UserService.change_password`.  `ckey` is the store key of
`current_user`; `newAltId` stands for the drawn `uuid.uuid4().hex`. -/
def change_password (ps : PasswordService) (newAltId : String) (s : Store)
    (ckey : String) (current_password new_password : String) :
    SvcResponse × Store :=
  match store_get s ckey with
  | none => (⟨403, "Password Change Failed", some 403⟩, s)
  | some cu =>
    if !(ps.verify current_password cu.password) then
      (⟨403, "Password Change Failed", some 403⟩, s)
    else
      (⟨200, "Password Change Successful", none⟩,
        store_set s ckey
          { cu with password := ps.hash new_password, alternative_id := newAltId })

/-- `UserService.delete_current_user`: soft delete of the current user. -/
def delete_current_user (ps : PasswordService) (s : Store) (ckey : String)
    (password : String) : SvcResponse × Store :=
  match store_get s ckey with
  | none =>
    (⟨403, "Unable to delete current user, password check failed.", some 403⟩, s)
  | some cu =>
    if !(ps.verify password cu.password) then
      (⟨403, "Unable to delete current user, password check failed.", some 403⟩, s)
    else
      (⟨200, "Current user deleted successfully.", none⟩,
        store_set s ckey { cu with deleted := true })

/-- `UserService.load_user`: first record whose `alternative_id` matches. -/
def load_user (s : Store) (user_id : String) : Option User :=
  (store_values s).find? (fun x => x.alternative_id == user_id)

/-- `max([0, *[x.id for x in db["users"].values()]]) + 1`. -/
def next_id (s : Store) : Nat :=
  ((store_values s).map User.id).foldl max 0 + 1

/-- `UserService.register_new_user`.  `newAltId` stands for the drawn
`uuid.uuid4().hex`. -/
def register_new_user (ps : PasswordService) (newAltId : String) (s : Store)
    (name password confirm_password : String) : SvcResponse × Store :=
  if password ≠ confirm_password then
    (⟨403, "The password and confirmation password did not match.", some 403⟩, s)
  else if ((store_values s).filter (fun x => x.name == name && !x.deleted)).length > 0 then
    (⟨403, "The username " ++ name ++ " is not available.", some 403⟩, s)
  else
    (⟨200, "User " ++ name ++ " registration successful", none⟩,
      store_set s (toString (next_id s))
        ⟨next_id s, newAltId, name, ps.hash password, false⟩)

/-!
Embedding of the S3 service.  `as_uri` calls CPython's
`urllib.parse.urlunparse(("s3", bucket or "", key or "", "", "", ""))`;
`urlunparse`/`urlunsplit` and the `uses_netloc` scheme table are embedded
verbatim from `Lib/urllib/parse.py` (Python truthiness of a string is
non-emptiness). -/

def uses_netloc : List String :=
  ["", "ftp", "http", "gopher", "nntp", "telnet", "imap", "wais", "file",
   "mms", "https", "shttp", "snews", "prospero", "rtsp", "rtsps", "rtspu",
   "rsync", "svn", "svn+ssh", "sftp", "nfs", "git", "git+ssh", "ws", "wss"]

def urlunsplit (scheme netloc url query fragment : String) : String :=
  let url1 :=
    if netloc ≠ "" ∨ (scheme ≠ "" ∧ scheme ∈ uses_netloc ∧ url.take 2 ≠ "//") then
      let url0 := if url ≠ "" ∧ url.take 1 ≠ "/" then "/" ++ url else url
      "//" ++ netloc ++ url0
    else url
  let url2 := if scheme ≠ "" then scheme ++ ":" ++ url1 else url1
  let url3 := if query ≠ "" then url2 ++ "?" ++ query else url2
  if fragment ≠ "" then url3 ++ "#" ++ fragment else url3

def urlunparse (scheme netloc url params query fragment : String) : String :=
  let url1 := if params ≠ "" then url ++ ";" ++ params else url
  urlunsplit scheme netloc url1 query fragment

/-- `S3Service.as_uri`: `urlunparse(("s3", bucket or "", key or "", "", "", ""))`
with `None` arguments coerced to the empty string by `or ""`. -/
def as_uri (bucket key : Option String) : String :=
  urlunparse "s3" (bucket.getD "") (key.getD "") "" "" ""

/-- Outcome of the external `client.upload_fileobj` call: it either returns,
or raises the distinguishable `botocore.exceptions.ClientError`. -/
inductive UploadOutcome where
  | success
  | clientError
deriving DecidableEq, Repr

/-- `S3Service.upload`: on `ClientError` the exception is caught, logged and
`None` is returned; otherwise the canonical URI `as_uri(bucket, key)`. -/
def upload (outcome : UploadOutcome) (bucket key : String) : Option String :=
  match outcome with
  | .clientError => none
  | .success => some (as_uri (some bucket) (some key))

/-!
Injectivity of the decimal rendering `toString : Nat → String` used for the
store keys `f"{new_id}"`.  `Nat.repr` is fuel-based (`Nat.toDigitsCore`), so
we relate it to a structural digit list `digitsOf` and recover the number
from the digit string. -/

def digitsOf (n : Nat) : List Char :=
  if _h : n < 10 then [Nat.digitChar n]
  else digitsOf (n / 10) ++ [Nat.digitChar (n % 10)]
termination_by n
decreasing_by exact Nat.div_lt_self (by omega) (by omega)

def digitVal (c : Char) : Nat := c.toNat - 48

lemma digitVal_digitChar {d : Nat} (h : d < 10) :
    digitVal (Nat.digitChar d) = d := by
  interval_cases d <;> decide

lemma digitsOf_foldl (n : Nat) :
    ∀ a : Nat, (digitsOf n).foldl (fun x c => 10 * x + digitVal c) a
      = a * 10 ^ (digitsOf n).length + n := by
  induction n using Nat.strong_induction_on with
  | _ n ih =>
    intro a
    rw [digitsOf]
    split
    · next h =>
      simp only [List.foldl_cons, List.foldl_nil, List.length_cons, List.length_nil,
        digitVal_digitChar h, Nat.zero_add, pow_one]
      omega
    · next h =>
      have hmod : n % 10 < 10 := Nat.mod_lt n (by omega)
      rw [List.foldl_append, ih (n / 10) (Nat.div_lt_self (by omega) (by omega)) a]
      simp only [List.foldl_cons, List.foldl_nil, List.length_append, List.length_cons,
        List.length_nil, digitVal_digitChar hmod, Nat.zero_add]
      have key : 10 * (n / 10) + n % 10 = n := Nat.div_add_mod n 10
      calc 10 * (a * 10 ^ (digitsOf (n / 10)).length + n / 10) + n % 10
          = a * 10 ^ ((digitsOf (n / 10)).length + 1) + (10 * (n / 10) + n % 10) := by
            ring
        _ = a * 10 ^ ((digitsOf (n / 10)).length + 1) + n := by rw [key]

lemma digitsOf_injective : Function.Injective digitsOf := by
  intro m n h
  have hm := digitsOf_foldl m 0
  have hn := digitsOf_foldl n 0
  simp only [Nat.zero_mul, Nat.zero_add] at hm hn
  rw [h] at hm
  exact hm.symm.trans hn

lemma toDigitsCore_eq_digitsOf :
    ∀ (fuel n : Nat) (ds : List Char), 0 < fuel → n < 10 ^ fuel →
      Nat.toDigitsCore 10 fuel n ds = digitsOf n ++ ds := by
  intro fuel
  induction fuel with
  | zero => intro n ds hf _; omega
  | succ f ih =>
    intro n ds _ h
    by_cases h10 : n < 10
    · have hd : n / 10 = 0 := Nat.div_eq_of_lt h10
      simp [Nat.toDigitsCore, hd, digitsOf, h10, Nat.mod_eq_of_lt h10]
    · have hd : ¬ n / 10 = 0 := by omega
      have hfpos : 0 < f := by
        by_contra hf0
        have hf : f = 0 := by omega
        subst hf
        norm_num at h
        omega
      have hdivlt : n / 10 < 10 ^ f := by
        rw [Nat.div_lt_iff_lt_mul (by omega : (0:Nat) < 10)]
        calc n < 10 ^ (f + 1) := h
          _ = 10 ^ f * 10 := by rw [pow_succ]
      simp only [Nat.toDigitsCore, hd, if_false]
      rw [ih (n / 10) (Nat.digitChar (n % 10) :: ds) hfpos hdivlt]
      conv_rhs => rw [digitsOf]
      simp [h10]


lemma toDigits_eq_digitsOf (n : Nat) : Nat.toDigits 10 n = digitsOf n := by
  rw [Nat.toDigits, toDigitsCore_eq_digitsOf (n + 1) n [] (Nat.succ_pos n)
    (lt_of_lt_of_le (Nat.lt_pow_self (by omega) n)
      (Nat.pow_le_pow_right (by omega) (Nat.le_succ n))), List.append_nil]

lemma natToString_injective (m n : Nat) (h : toString m = toString n) : m = n := by
  have hr : Nat.repr m = Nat.repr n := h
  rw [Nat.repr, Nat.repr] at hr
  have hl : Nat.toDigits 10 m = Nat.toDigits 10 n := by
    have := congrArg String.data hr
    simpa [List.asString] using this
  rw [toDigits_eq_digitsOf, toDigits_eq_digitsOf] at hl
  exact digitsOf_injective hl

/-- Pointwise update of the entry(ies) holding key `ckey`: the effect of the
Python field assignments on an object aliased in the dict. -/
def replace_entry (ckey : String) (nu : User) (s : Store) : Store :=
  s.map (fun pr => if pr.1 == ckey then (ckey, nu) else pr)

lemma store_get_some_exists {s : Store} {k : String} {cu : User}
    (h : store_get s k = some cu) :
    ∃ pr ∈ s, pr.1 = k ∧ pr.2 = cu := by
  simp only [store_get] at h
  cases hf : s.find? (fun pr => pr.1 == k) with
  | none => rw [hf] at h; exact absurd h (by simp)
  | some pr0 =>
    rw [hf] at h
    have hmem := List.mem_of_find?_eq_some hf
    have hp := List.find?_some hf
    exact ⟨pr0, hmem, by simpa using hp, by simpa using h⟩

lemma store_any_of_get {s : Store} {k : String} {cu : User}
    (h : store_get s k = some cu) :
    s.any (fun pr => pr.1 == k) = true := by
  obtain ⟨pr, hmem, hk, _⟩ := store_get_some_exists h
  exact List.any_eq_true.mpr ⟨pr, hmem, by simpa using hk⟩

lemma store_set_eq_replace {s : Store} {k : String} {u : User}
    (h : s.any (fun pr => pr.1 == k) = true) :
    store_set s k u = replace_entry k u s := by
  unfold store_set replace_entry
  rw [if_pos h]

lemma store_values_replace (ckey : String) (nu : User) (s : Store) :
    store_values (replace_entry ckey nu s)
      = s.map (fun pr => if pr.1 = ckey then nu else pr.2) := by
  induction s with
  | nil => rfl
  | cons hd tl ih =>
    obtain ⟨k0, u0⟩ := hd
    simp only [replace_entry, store_values, List.map_cons] at ih ⊢
    by_cases hk : k0 = ckey
    · subst hk
      simp only [beq_self_eq_true, if_true, if_pos rfl]
      exact congrArg (nu :: ·) ih
    · rw [if_neg (by simpa using hk), if_neg hk]
      exact congrArg (u0 :: ·) ih

lemma find?_values_replace_some (pred : User → Bool) (ckey : String) (nu : User)
    (hnu : pred nu = true) :
    ∀ s : Store, (∀ pr ∈ s, pr.1 ≠ ckey → pred pr.2 = false) →
      (∃ pr ∈ s, pr.1 = ckey) →
      (store_values (replace_entry ckey nu s)).find? pred = some nu := by
  intro s
  induction s with
  | nil => intro _ hex; simp at hex
  | cons hd tl ih =>
    intro hothers hex
    obtain ⟨k0, u0⟩ := hd
    rw [store_values_replace] at ih ⊢
    rw [List.map_cons]
    by_cases hk : k0 = ckey
    · rw [if_pos hk]
      exact List.find?_cons_of_pos _ hnu
    · have hpred : pred u0 = false :=
        hothers (k0, u0) (List.mem_cons_self _ _) (by simpa using hk)
      rw [if_neg hk, List.find?_cons_of_neg _ (by simp [hpred])]
      have hex' : ∃ pr ∈ tl, pr.1 = ckey := by
        obtain ⟨pr, hmem, hkey⟩ := hex
        rcases List.mem_cons.mp hmem with hh | ht
        · exact absurd (by simpa [hh] using hkey) hk
        · exact ⟨pr, ht, hkey⟩
      exact ih (fun pr hm hne => hothers pr (List.mem_cons_of_mem _ hm) hne) hex'

lemma find?_values_replace_none (pred : User → Bool) (ckey : String) (nu : User)
    (hnu : pred nu = false) (s : Store)
    (hothers : ∀ pr ∈ s, pr.1 ≠ ckey → pred pr.2 = false) :
    (store_values (replace_entry ckey nu s)).find? pred = none := by
  rw [store_values_replace, List.find?_eq_none]
  intro x hx
  obtain ⟨pr, hmem, hx⟩ := List.mem_map.mp hx
  by_cases hk : pr.1 = ckey
  · rw [if_pos hk] at hx
    subst hx
    simp [hnu]
  · rw [if_neg hk] at hx
    subst hx
    simp [hothers pr hmem hk]

lemma store_get_replace (ckey : String) (nu : User) :
    ∀ s : Store, (∃ pr ∈ s, pr.1 = ckey) →
      store_get (replace_entry ckey nu s) ckey = some nu := by
  intro s
  induction s with
  | nil => intro hex; simp at hex
  | cons hd tl ih =>
    intro hex
    obtain ⟨k0, u0⟩ := hd
    by_cases hk : k0 = ckey
    · subst hk
      simp only [replace_entry, store_get, List.map_cons, beq_self_eq_true, if_true]
      rw [List.find?_cons_of_pos _ (by simp)]
      rfl
    · have hex' : ∃ pr ∈ tl, pr.1 = ckey := by
        obtain ⟨pr, hmem, hkey⟩ := hex
        rcases List.mem_cons.mp hmem with hh | ht
        · exact absurd (by simpa [hh] using hkey) hk
        · exact ⟨pr, ht, hkey⟩
      have hrec := ih hex'
      simp only [replace_entry, store_get, List.map_cons,
        if_neg (show ¬((k0, u0).1 == ckey) = true by simpa using hk)] at hrec ⊢
      rw [List.find?_cons_of_neg _ (by simpa using hk)]
      exact hrec

lemma le_foldl_max (l : List Nat) : ∀ a : Nat,
    a ≤ l.foldl max a ∧ ∀ x ∈ l, x ≤ l.foldl max a := by
  induction l with
  | nil => simp
  | cons hd tl ih =>
    intro a
    simp only [List.foldl_cons]
    refine ⟨le_trans (le_max_left a hd) (ih (max a hd)).1, ?_⟩
    intro x hx
    rcases List.mem_cons.mp hx with hh | ht
    · subst hh
      exact le_trans (le_max_right a x) (ih (max a x)).1
    · exact (ih (max a hd)).2 x ht

/-- Concrete password service used to instantiate theorems: `hash` prepends a
tag and `verify` recomputes it, so `verify p (hash p) = true`. -/
def psW : PasswordService :=
  ⟨fun p => "h:" ++ p, fun p hp => hp == "h:" ++ p⟩

lemma register_success_inv (ps : PasswordService) (a : String) (s : Store)
    (n p c : String)
    (h : (register_new_user ps a s n p c).1.status = 200) :
    p = c ∧ ∀ u ∈ store_values s, ¬(u.name = n ∧ u.deleted = false) := by
  unfold register_new_user at h
  by_cases hpc : p ≠ c
  · rw [if_pos hpc] at h; simp at h
  · rw [if_neg hpc] at h
    push_neg at hpc
    by_cases hcol :
        ((store_values s).filter (fun x => x.name == n && !x.deleted)).length > 0
    · rw [if_pos hcol] at h; simp at h
    · refine ⟨hpc, ?_⟩
      have hnil : (store_values s).filter (fun x => x.name == n && !x.deleted) = [] :=
        List.length_eq_zero.mp (by omega)
      intro u hu hcond
      have hne := List.filter_eq_nil_iff.mp hnil u hu
      simp [hcond.1, hcond.2] at hne

lemma no_collision_filter_nil {s : Store} {n : String}
    (hcol : ∀ u ∈ store_values s, ¬(u.name = n ∧ u.deleted = false)) :
    (store_values s).filter (fun x => x.name == n && !x.deleted) = [] := by
  rw [List.filter_eq_nil_iff]
  intro u hu
  have hne := hcol u hu
  by_cases h1 : u.name = n
  · by_cases h2 : u.deleted
    · simp [h2]
    · exact absurd ⟨h1, by simpa using h2⟩ hne
  · simp [h1]

lemma register_success_eq (ps : PasswordService) (a : String) (s : Store)
    (n p : String)
    (hcol : ∀ u ∈ store_values s, ¬(u.name = n ∧ u.deleted = false)) :
    register_new_user ps a s n p p
      = (⟨200, "User " ++ n ++ " registration successful", none⟩,
         store_set s (toString (next_id s)) ⟨next_id s, a, n, ps.hash p, false⟩) := by
  unfold register_new_user
  rw [if_neg (by simp), if_neg (by simp [no_collision_filter_nil hcol])]

lemma mem_store_values_set (s : Store) (k : String) (nu : User) :
    nu ∈ store_values (store_set s k nu) := by
  unfold store_set store_values
  split
  · next hany =>
    obtain ⟨pr, hm, hb⟩ := List.any_eq_true.mp hany
    exact List.mem_map.mpr ⟨(k, nu), List.mem_map.mpr ⟨pr, hm, by simp [hb]⟩, rfl⟩
  · exact List.mem_map.mpr ⟨(k, nu), List.mem_append_right _ (List.mem_singleton.mpr rfl), rfl⟩

/-- C1: `authenticate_user` returns the same externally visible result,
`none`, whether no non-deleted user with the given name exists (store `s₁`)
or such a user exists but password verification fails (store `s₂`); its
return value never distinguishes the two failure causes. -/
theorem authenticate_user_uniform_failure
    (ps : PasswordService) (s₁ s₂ : Store) (name pw : String) (u : User)
    (h₁ : first_name_match s₁ name = none)
    (h₂ : first_name_match s₂ name = some u)
    (hv : ps.verify pw u.password = false) :
    authenticate_user ps s₁ name pw = none ∧
    authenticate_user ps s₂ name pw = none ∧
    authenticate_user ps s₁ name pw = authenticate_user ps s₂ name pw := by
  unfold authenticate_user
  rw [h₁, h₂]
  simp [hv]

theorem authenticate_user_uniform_failure_witness :
    authenticate_user psW [] "bob" "x" = none ∧
    authenticate_user psW [("1", ⟨1, "a", "bob", "h:y", false⟩)] "bob" "x" = none ∧
    authenticate_user psW [] "bob" "x"
      = authenticate_user psW [("1", ⟨1, "a", "bob", "h:y", false⟩)] "bob" "x" :=
  authenticate_user_uniform_failure psW [] [("1", ⟨1, "a", "bob", "h:y", false⟩)]
    "bob" "x" ⟨1, "a", "bob", "h:y", false⟩ (by decide) (by decide) (by decide)

/-- C2: `change_password` with a current password that does not verify against
the current user's stored hash returns the forbidden 403 result and returns
the store unchanged, so the stored hash, the alternative id and every other
field of every record are untouched. -/
theorem change_password_wrong_current_noop
    (ps : PasswordService) (a : String) (s : Store) (ckey cur new : String)
    (cu : User)
    (h : store_get s ckey = some cu)
    (hv : ps.verify cur cu.password = false) :
    change_password ps a s ckey cur new
      = (⟨403, "Password Change Failed", some 403⟩, s) := by
  unfold change_password
  rw [h]
  simp [hv]

theorem change_password_wrong_current_noop_witness :
    change_password psW "alt2" [("1", ⟨1, "a", "bob", "h:pw", false⟩)] "1" "bad" "np"
      = (⟨403, "Password Change Failed", some 403⟩,
         [("1", ⟨1, "a", "bob", "h:pw", false⟩)]) :=
  change_password_wrong_current_noop psW "alt2"
    [("1", ⟨1, "a", "bob", "h:pw", false⟩)] "1" "bad" "np"
    ⟨1, "a", "bob", "h:pw", false⟩ (by decide) (by decide)

/-- C3: after a successful `change_password` by the user stored at `ckey`
whose alternative id was `A`, given that the freshly drawn alternative id
differs from `A` and no other record holds `A`, `load_user A` returns `none`:
the old session token no longer resolves. -/
theorem change_password_invalidates_old_session
    (ps : PasswordService) (s : Store) (ckey : String) (cu : User)
    (cur new newAlt A : String)
    (h : store_get s ckey = some cu)
    (hv : ps.verify cur cu.password = true)
    (hA : cu.alternative_id = A)
    (hfresh : newAlt ≠ A)
    (huniq : ∀ pr ∈ s, pr.2.alternative_id = A → pr.1 = ckey) :
    load_user (change_password ps newAlt s ckey cur new).2 A = none := by
  clear hA
  have hstep : change_password ps newAlt s ckey cur new
      = (⟨200, "Password Change Successful", none⟩,
         store_set s ckey
           { cu with password := ps.hash new, alternative_id := newAlt }) := by
    unfold change_password
    rw [h]
    simp [hv]
  rw [hstep]
  simp only
  rw [store_set_eq_replace (store_any_of_get h)]
  unfold load_user
  apply find?_values_replace_none
  · simp [hfresh]
  · intro pr hm hne
    by_cases halt : pr.2.alternative_id = A
    · exact absurd (huniq pr hm halt) hne
    · simp [halt]

theorem change_password_invalidates_old_session_witness :
    load_user
      (change_password psW "C" [("1", ⟨1, "A", "bob", "h:pw", false⟩),
        ("2", ⟨2, "B", "eve", "h:q", false⟩)] "1" "pw" "np").2 "A" = none :=
  change_password_invalidates_old_session psW
    [("1", ⟨1, "A", "bob", "h:pw", false⟩), ("2", ⟨2, "B", "eve", "h:q", false⟩)]
    "1" ⟨1, "A", "bob", "h:pw", false⟩ "pw" "np" "C" "A"
    (by decide) (by decide) (by decide) (by decide) (by decide)

/-- C7: a successful `delete_current_user` keeps the user's record in the
store at its key with only the `deleted` flag set to true (id, alternative
id, name and password hash untouched, all other entries unchanged), and a
subsequent `authenticate_user` with that user's name and original password
returns `none`. -/
theorem delete_current_user_soft_delete
    (ps : PasswordService) (s : Store) (ckey pw : String) (cu : User)
    (h : store_get s ckey = some cu)
    (hv : ps.verify pw cu.password = true)
    (huniq : ∀ pr ∈ s, pr.2.name = cu.name → pr.2.deleted = false → pr.1 = ckey) :
    delete_current_user ps s ckey pw
      = (⟨200, "Current user deleted successfully.", none⟩,
         replace_entry ckey { cu with deleted := true } s)
    ∧ store_get (delete_current_user ps s ckey pw).2 ckey
        = some { cu with deleted := true }
    ∧ authenticate_user ps (delete_current_user ps s ckey pw).2 cu.name pw
        = none := by
  have hstep : delete_current_user ps s ckey pw
      = (⟨200, "Current user deleted successfully.", none⟩,
         store_set s ckey { cu with deleted := true }) := by
    unfold delete_current_user
    rw [h]
    simp [hv]
  have hrep := store_set_eq_replace
    (s := s) (k := ckey) (u := { cu with deleted := true }) (store_any_of_get h)
  obtain ⟨pr0, hmem0, hk0, _⟩ := store_get_some_exists h
  have hothers : ∀ pr ∈ s, pr.1 ≠ ckey →
      (fun x => x.name == cu.name && !x.deleted) pr.2 = false := by
    intro pr hm hne
    by_cases hn : pr.2.name = cu.name
    · by_cases hdel : pr.2.deleted
      · simp [hdel]
      · exact absurd (huniq pr hm hn (by simpa using hdel)) hne
    · simp [hn]
  refine ⟨by rw [hstep, hrep], ?_, ?_⟩
  · rw [hstep]
    simp only
    rw [hrep]
    exact store_get_replace ckey _ s ⟨pr0, hmem0, hk0⟩
  · rw [hstep]
    simp only
    rw [hrep]
    unfold authenticate_user first_name_match
    rw [find?_values_replace_none _ ckey _ (by simp) s hothers]

theorem delete_current_user_soft_delete_witness :
    delete_current_user psW
        [("1", ⟨1, "A", "bob", "h:pw", false⟩), ("2", ⟨2, "B", "eve", "h:q", false⟩)]
        "1" "pw"
      = (⟨200, "Current user deleted successfully.", none⟩,
         replace_entry "1" ⟨1, "A", "bob", "h:pw", true⟩
           [("1", ⟨1, "A", "bob", "h:pw", false⟩), ("2", ⟨2, "B", "eve", "h:q", false⟩)])
    ∧ store_get (delete_current_user psW
        [("1", ⟨1, "A", "bob", "h:pw", false⟩), ("2", ⟨2, "B", "eve", "h:q", false⟩)]
        "1" "pw").2 "1" = some ⟨1, "A", "bob", "h:pw", true⟩
    ∧ authenticate_user psW (delete_current_user psW
        [("1", ⟨1, "A", "bob", "h:pw", false⟩), ("2", ⟨2, "B", "eve", "h:q", false⟩)]
        "1" "pw").2 "bob" "pw" = none :=
  delete_current_user_soft_delete psW
    [("1", ⟨1, "A", "bob", "h:pw", false⟩), ("2", ⟨2, "B", "eve", "h:q", false⟩)]
    "1" "pw" ⟨1, "A", "bob", "h:pw", false⟩ (by decide) (by decide) (by decide)

/-- C10: `load_user` does not consult the `deleted` flag: after a successful
soft delete of the user stored at `ckey` (whose alternative id no other
record holds), `load_user` with that alternative id still returns the
record, now carrying `deleted = true`. -/
theorem load_user_resolves_soft_deleted
    (ps : PasswordService) (s : Store) (ckey pw : String) (cu : User)
    (h : store_get s ckey = some cu)
    (hv : ps.verify pw cu.password = true)
    (huniq : ∀ pr ∈ s, pr.2.alternative_id = cu.alternative_id → pr.1 = ckey) :
    load_user (delete_current_user ps s ckey pw).2 cu.alternative_id
      = some { cu with deleted := true } := by
  have hstep : delete_current_user ps s ckey pw
      = (⟨200, "Current user deleted successfully.", none⟩,
         store_set s ckey { cu with deleted := true }) := by
    unfold delete_current_user
    rw [h]
    simp [hv]
  obtain ⟨pr0, hmem0, hk0, _⟩ := store_get_some_exists h
  rw [hstep]
  simp only
  rw [store_set_eq_replace (store_any_of_get h)]
  unfold load_user
  apply find?_values_replace_some
  · simp
  · intro pr hm hne
    by_cases halt : pr.2.alternative_id = cu.alternative_id
    · exact absurd (huniq pr hm halt) hne
    · simp [halt]
  · exact ⟨pr0, hmem0, hk0⟩

theorem load_user_resolves_soft_deleted_witness :
    load_user (delete_current_user psW
        [("1", ⟨1, "A", "bob", "h:pw", false⟩), ("2", ⟨2, "B", "eve", "h:q", false⟩)]
        "1" "pw").2 "A" = some ⟨1, "A", "bob", "h:pw", true⟩ :=
  load_user_resolves_soft_deleted psW
    [("1", ⟨1, "A", "bob", "h:pw", false⟩), ("2", ⟨2, "B", "eve", "h:q", false⟩)]
    "1" "pw" ⟨1, "A", "bob", "h:pw", false⟩ (by decide) (by decide) (by decide)

/-- C6: whenever `register_new_user name password password` succeeds and the
password primitive satisfies `verify p (hash p) = true`, a subsequent
`authenticate_user name password` on the updated store returns exactly the
newly created record. -/
theorem authenticate_after_register
    (ps : PasswordService) (a : String) (s : Store) (n p : String)
    (hround : ps.verify p (ps.hash p) = true)
    (hsucc : (register_new_user ps a s n p p).1.status = 200) :
    authenticate_user ps (register_new_user ps a s n p p).2 n p
      = some ⟨next_id s, a, n, ps.hash p, false⟩ := by
  obtain ⟨-, hcol⟩ := register_success_inv ps a s n p p hsucc
  rw [register_success_eq ps a s n p hcol]
  simp only
  have hothersF : ∀ u ∈ store_values s,
      (fun x => x.name == n && !x.deleted) u = false := by
    intro u hu
    have hne := hcol u hu
    by_cases h1 : u.name = n
    · by_cases h2 : u.deleted
      · simp [h2]
      · exact absurd ⟨h1, by simpa using h2⟩ hne
    · simp [h1]
  unfold authenticate_user first_name_match
  by_cases hany : s.any (fun pr => pr.1 == toString (next_id s)) = true
  · rw [store_set_eq_replace hany]
    rw [find?_values_replace_some _ _ _ (by simp) s
      (fun pr hm _ => hothersF pr.2 (List.mem_map_of_mem _ hm))
      (by
        obtain ⟨pr, hm, hb⟩ := List.any_eq_true.mp hany
        exact ⟨pr, hm, by simpa using hb⟩)]
    simp [hround]
  · unfold store_set
    rw [if_neg hany]
    have hnone : (store_values s).find? (fun x => x.name == n && !x.deleted) = none := by
      rw [List.find?_eq_none]
      intro x hx
      simp [hothersF x hx]
    unfold store_values at hnone ⊢
    rw [List.map_append, List.find?_append, hnone]
    simp [hround]

theorem authenticate_after_register_witness :
    authenticate_user psW
        (register_new_user psW "A" [("1", ⟨1, "B", "eve", "h:q", false⟩)]
          "bob" "pw" "pw").2 "bob" "pw"
      = some ⟨2, "A", "bob", "h:pw", false⟩ := by
  have := authenticate_after_register psW "A"
    [("1", ⟨1, "B", "eve", "h:q", false⟩)] "bob" "pw" (by decide) (by decide)
  simpa using this

/-- C5: under the store invariant that every key is the decimal rendering of
its record's id, a successful `register_new_user` appends exactly one new
entry — keyed by the fresh id `next_id s = max(existing ids) + 1`, with the
hash of the supplied password, the freshly generated alternative id and
`deleted = false` — modifying no existing entry; the fresh id is strictly
greater than every stored id (never reused, soft-deleted records included)
and is 1 on the empty store. -/
theorem register_new_user_success_inserts
    (ps : PasswordService) (a : String) (s : Store) (n p c : String)
    (hkeys : ∀ pr ∈ s, pr.1 = toString pr.2.id)
    (hsucc : (register_new_user ps a s n p c).1.status = 200) :
    (register_new_user ps a s n p c).2
        = s ++ [(toString (next_id s), ⟨next_id s, a, n, ps.hash p, false⟩)]
    ∧ (∀ u ∈ store_values s, u.id < next_id s)
    ∧ next_id ([] : Store) = 1 := by
  obtain ⟨hpc, hcol⟩ := register_success_inv ps a s n p c hsucc
  subst hpc
  have hlt : ∀ u ∈ store_values s, u.id < next_id s := by
    intro u hu
    have hmem : u.id ∈ (store_values s).map User.id := List.mem_map_of_mem _ hu
    have hle := (le_foldl_max ((store_values s).map User.id) 0).2 _ hmem
    unfold next_id
    omega
  have hfresh : ¬ s.any (fun pr => pr.1 == toString (next_id s)) = true := by
    intro hany
    obtain ⟨pr, hm, hbeq⟩ := List.any_eq_true.mp hany
    have hkey := hkeys pr hm
    have heq : toString pr.2.id = toString (next_id s) := by
      rw [← hkey]
      simpa using hbeq
    have hid : pr.2.id = next_id s := natToString_injective _ _ heq
    have := hlt pr.2 (List.mem_map_of_mem Prod.snd hm)
    omega
  rw [register_success_eq ps a s n p hcol]
  refine ⟨?_, hlt, rfl⟩
  simp only
  unfold store_set
  rw [if_neg hfresh]

theorem register_new_user_success_inserts_witness :
    (register_new_user psW "A" [("3", ⟨3, "B", "eve", "h:q", true⟩)]
        "bob" "pw" "pw").2
      = [("3", ⟨3, "B", "eve", "h:q", true⟩), ("4", ⟨4, "A", "bob", "h:pw", false⟩)]
    ∧ (∀ u ∈ store_values [("3", ⟨3, "B", "eve", "h:q", true⟩)],
        u.id < next_id [("3", ⟨3, "B", "eve", "h:q", true⟩)])
    ∧ next_id ([] : Store) = 1 := by
  have := register_new_user_success_inserts psW "A"
    [("3", ⟨3, "B", "eve", "h:q", true⟩)] "bob" "pw" "pw"
    (by decide) (by decide)
  simpa using this

/-- C4: `register_new_user` fails with a 403 conflict and leaves the store
unchanged exactly when the password differs from its confirmation or some
non-deleted user already holds the name; registering a name twice (the
second time while the first holder is non-deleted) always fails with the
duplicate-name condition; and registering the same name again after the
sole non-deleted holder has been soft-deleted succeeds. -/
theorem register_new_user_conflict_conditions
    (ps : PasswordService) (a₁ a₂ : String) (s : Store)
    (ckey n p c q pw : String) (cu : User) :
    (((register_new_user ps a₁ s n p c).1.status = 403
        ∧ (register_new_user ps a₁ s n p c).2 = s)
      ↔ (p ≠ c ∨ ∃ u ∈ store_values s, u.name = n ∧ u.deleted = false))
    ∧ ((register_new_user ps a₁ s n p p).1.status = 200 →
        register_new_user ps a₂ (register_new_user ps a₁ s n p p).2 n q q
          = (⟨403, "The username " ++ n ++ " is not available.", some 403⟩,
             (register_new_user ps a₁ s n p p).2))
    ∧ (store_get s ckey = some cu → cu.name = n →
        ps.verify pw cu.password = true →
        (∀ pr ∈ s, pr.2.name = n → pr.2.deleted = false → pr.1 = ckey) →
        (register_new_user ps a₂ (delete_current_user ps s ckey pw).2 n q q).1.status
          = 200) := by
  refine ⟨⟨?_, ?_⟩, ?_, ?_⟩
  · -- failure implies one of the two conflict causes
    rintro ⟨hst, -⟩
    by_cases hpc : p ≠ c
    · exact Or.inl hpc
    · push_neg at hpc
      subst hpc
      by_cases hcol : ∃ u ∈ store_values s, u.name = n ∧ u.deleted = false
      · exact Or.inr hcol
      · push_neg at hcol
        rw [register_success_eq ps a₁ s n p
          (fun u hu hypo => absurd hypo.2 (hcol u hu hypo.1))] at hst
        simp at hst
  · -- each conflict cause yields the 403 result and an unchanged store
    rintro (hpc | ⟨u, hu, hn, hd⟩)
    · unfold register_new_user
      rw [if_pos hpc]
      exact ⟨rfl, rfl⟩
    · unfold register_new_user
      by_cases hpc : p ≠ c
      · rw [if_pos hpc]
        exact ⟨rfl, rfl⟩
      · rw [if_neg hpc]
        rw [if_pos (List.length_pos_of_mem
          (List.mem_filter.mpr ⟨hu, by simp [hn, hd]⟩))]
        exact ⟨rfl, rfl⟩
  · -- registering the same name twice: the second call hits the
    -- duplicate-name condition
    intro hsucc
    obtain ⟨-, hcol⟩ := register_success_inv ps a₁ s n p p hsucc
    rw [register_success_eq ps a₁ s n p hcol]
    simp only
    have hmem : (⟨next_id s, a₁, n, ps.hash p, false⟩ : User)
        ∈ store_values (store_set s (toString (next_id s))
            ⟨next_id s, a₁, n, ps.hash p, false⟩) :=
      mem_store_values_set s _ _
    unfold register_new_user
    rw [if_neg (by simp), if_pos (List.length_pos_of_mem
      (List.mem_filter.mpr ⟨hmem, by simp⟩))]
  · -- soft-deleting the sole non-deleted holder frees the name
    intro h hname hv huniq
    have hstep : delete_current_user ps s ckey pw
        = (⟨200, "Current user deleted successfully.", none⟩,
           store_set s ckey { cu with deleted := true }) := by
      unfold delete_current_user
      rw [h]
      simp [hv]
    rw [hstep]
    simp only
    rw [store_set_eq_replace (store_any_of_get h)]
    have hnil : (store_values (replace_entry ckey { cu with deleted := true } s)).filter
        (fun x => x.name == n && !x.deleted) = [] := by
      rw [List.filter_eq_nil_iff]
      intro x hx
      rw [store_values_replace] at hx
      obtain ⟨pr, hm, hxeq⟩ := List.mem_map.mp hx
      by_cases hk : pr.1 = ckey
      · rw [if_pos hk] at hxeq
        subst hxeq
        simp
      · rw [if_neg hk] at hxeq
        subst hxeq
        by_cases h1 : pr.2.name = n
        · by_cases h2 : pr.2.deleted
          · simp [h2]
          · exact absurd (huniq pr hm h1 (by simpa using h2)) hk
        · simp [h1]
    unfold register_new_user
    rw [if_neg (by simp), if_neg (by simp [hnil])]

theorem register_new_user_conflict_conditions_witness :
    register_new_user psW "a2"
        (register_new_user psW "a1" [("1", ⟨1, "A", "bob", "h:old", true⟩)]
          "bob" "pw" "pw").2 "bob" "q2" "q2"
      = (⟨403, "The username " ++ "bob" ++ " is not available.", some 403⟩,
         (register_new_user psW "a1" [("1", ⟨1, "A", "bob", "h:old", true⟩)]
           "bob" "pw" "pw").2)
    ∧ (register_new_user psW "a2"
        (delete_current_user psW [("1", ⟨1, "A", "bob", "h:old", true⟩)]
          "1" "old").2 "bob" "q2" "q2").1.status = 200
    ∧ ((register_new_user psW "a1" [("1", ⟨1, "A", "bob", "h:old", true⟩)]
          "bob" "pw" "pw2").1.status = 403
        ∧ (register_new_user psW "a1" [("1", ⟨1, "A", "bob", "h:old", true⟩)]
            "bob" "pw" "pw2").2 = [("1", ⟨1, "A", "bob", "h:old", true⟩)]) := by
  have hthm := register_new_user_conflict_conditions psW "a1" "a2"
    [("1", ⟨1, "A", "bob", "h:old", true⟩)] "1" "bob" "pw" "pw2" "q2" "old"
    ⟨1, "A", "bob", "h:old", true⟩
  refine ⟨hthm.2.1 (by decide), hthm.2.2 (by decide) (by decide) (by decide) (by decide), ?_⟩
  exact hthm.1.mpr (Or.inl (by decide))

/-- C8 counterexample: `as_uri(None, None)` does not return `"s3:///"`; the
claim fails at this concrete input (the actual value is `"s3:"`). -/
theorem as_uri_none_none_ne_spec : as_uri none none ≠ "s3:///" := by decide

/-- C8 (amended): `as_uri(bucket="b", key="k")` returns `"s3://b/k"`, and
`as_uri(None, None)` returns `"s3:"` without raising — missing values are
substituted by empty string components, and with an empty bucket
`urlunparse` emits no `//` authority separator, so the result is `"s3:"`
rather than `"s3:///"`. -/
theorem as_uri_formatting :
    as_uri (some "b") (some "k") = "s3://b/k" ∧ as_uri none none = "s3:" := by
  exact ⟨by decide, by decide⟩

/-- C9: `upload` returns the canonical URI `as_uri(bucket, key)` when the
client upload succeeds, and returns `none` — rather than raising — when the
client raises its failure condition, so an absent result is the sole failure
signal visible to callers. -/
theorem upload_result_contract (b k : String) :
    upload UploadOutcome.success b k = some (as_uri (some b) (some k))
    ∧ upload UploadOutcome.clientError b k = none :=
  ⟨rfl, rfl⟩
